import Mathlib

/-!
Verification of the brainrot presence-registry backend.

The backend keeps its state in JavaScript Maps / plain objects whose keys are
strings and whose iteration order is insertion order.  We embed such a map as an
association list in insertion order.  `Map.set` / object assignment replaces the
value of an existing key in place (keeping its position) and appends a fresh key
at the end; `Map.delete` / the `delete` operator removes the entry.
-/

open List

namespace Brainrot

/-- The code points JS `String.prototype.trim` strips in the inputs this
backend sees (ASCII whitespace). -/
def isJsWhitespace (c : Char) : Bool := c = ' ' ∨ c = '\t' ∨ c = '\n' ∨ c = '\r'

/-- JS `s.trim()`: strip leading and trailing whitespace. -/
def jsTrim (s : String) : String :=
  ⟨((s.data.dropWhile isJsWhitespace).reverse.dropWhile isJsWhitespace).reverse⟩

/-- JS `s.toLowerCase()` on the ASCII identifiers this backend handles. -/
def jsToLower (s : String) : String := ⟨s.data.map Char.toLower⟩

/-- Lookup in a JS map: value of the first entry with the given key. -/
def mapLookup {α : Type} (k : String) : List (String × α) → Option α
  | [] => none
  | e :: t => if e.1 = k then some e.2 else mapLookup k t

/-- JS `Map.set` / object assignment: replace in place or append at the end. -/
def mapSet {α : Type} (k : String) (v : α) : List (String × α) → List (String × α)
  | [] => [(k, v)]
  | e :: t => if e.1 = k then (k, v) :: t else e :: mapSet k v t

/-- JS `Map.delete` / the `delete` operator: remove the entry with the key. -/
def mapDelete {α : Type} (k : String) : List (String × α) → List (String × α)
  | [] => []
  | e :: t => if e.1 = k then t else e :: mapDelete k t

/-- The keys of the map, in insertion order. -/
def mapKeys {α : Type} (l : List (String × α)) : List String := l.map Prod.fst

/-- A real JS map never holds the same key twice. -/
def NodupKeys {α : Type} (l : List (String × α)) : Prop := (mapKeys l).Nodup

instance {α : Type} (l : List (String × α)) : Decidable (NodupKeys l) := by
  unfold NodupKeys; infer_instance

theorem mapLookup_mapSet_self {α : Type} (k : String) (v : α) (l : List (String × α)) :
    mapLookup k (mapSet k v l) = some v := by
  induction l with
  | nil => simp [mapSet, mapLookup]
  | cons e t ih =>
    by_cases h : e.1 = k
    · simp [mapSet, h, mapLookup]
    · simp [mapSet, h, mapLookup, ih]

theorem mapLookup_mapSet_ne {α : Type} {k k' : String} (v : α) (l : List (String × α))
    (h : k' ≠ k) : mapLookup k' (mapSet k v l) = mapLookup k' l := by
  have h1 : ¬ k = k' := fun h2 => h h2.symm
  induction l with
  | nil => simp [mapSet, mapLookup, h1]
  | cons e t ih =>
    by_cases he : e.1 = k
    · have h2 : ¬ e.1 = k' := by rw [he]; exact h1
      simp [mapSet, he, mapLookup, h1, h2]
    · simp [mapSet, he, mapLookup, ih]

theorem mapLookup_mem {α : Type} {k : String} {v : α} {l : List (String × α)}
    (h : mapLookup k l = some v) : (k, v) ∈ l := by
  induction l with
  | nil => simp [mapLookup] at h
  | cons e t ih =>
    by_cases he : e.1 = k
    · simp only [mapLookup, if_pos he] at h
      have hek : e = (k, v) := by
        obtain ⟨e1, e2⟩ := e
        simp only at he h
        rw [he, Option.some.inj h]
      rw [← hek]
      exact List.mem_cons_self e t
    · simp only [mapLookup, if_neg he] at h
      exact List.mem_cons_of_mem _ (ih h)

theorem mapLookup_eq_none {α : Type} {k : String} {l : List (String × α)} :
    mapLookup k l = none ↔ k ∉ mapKeys l := by
  induction l with
  | nil => simp [mapLookup, mapKeys]
  | cons e t ih =>
    simp only [mapKeys, List.map_cons, List.mem_cons, mapLookup]
    by_cases he : e.1 = k
    · simp [he]
    · rw [if_neg he, ih]
      constructor
      · intro h1 h2
        rcases h2 with h2 | h2
        · exact he h2.symm
        · exact h1 h2
      · intro h1 h2
        exact h1 (Or.inr h2)

theorem mapLookup_filter {α : Type} {k : String} {v : α} {l : List (String × α)}
    (p : String × α → Bool) (h : mapLookup k l = some v) (hp : p (k, v) = true) :
    mapLookup k (l.filter p) = some v := by
  induction l with
  | nil => simp [mapLookup] at h
  | cons e t ih =>
    by_cases he : e.1 = k
    · simp only [mapLookup, if_pos he] at h
      have hek : e = (k, v) := by
        obtain ⟨e1, e2⟩ := e
        simp only at he h
        rw [he, Option.some.inj h]
      subst hek
      rw [List.filter_cons_of_pos hp]
      simp [mapLookup]
    · simp only [mapLookup, if_neg he] at h
      cases hpe : p e with
      | false => rw [List.filter_cons_of_neg (by simp [hpe])]; exact ih h
      | true =>
        rw [List.filter_cons_of_pos hpe]
        simp only [mapLookup, if_neg he]
        exact ih h

theorem mapKeys_filter_sublist {α : Type} (p : String × α → Bool) (l : List (String × α)) :
    mapKeys (l.filter p) <+ mapKeys l :=
  (List.filter_sublist l).map Prod.fst

theorem nodupKeys_filter {α : Type} {l : List (String × α)} (p : String × α → Bool)
    (h : NodupKeys l) : NodupKeys (l.filter p) :=
  List.Nodup.sublist (mapKeys_filter_sublist p l) h

theorem nodup_of_nodupKeys {α : Type} {l : List (String × α)} (h : NodupKeys l) : l.Nodup :=
  List.Nodup.of_map Prod.fst h

/-- In a map with no duplicate keys, two entries with the same key are the same entry. -/
theorem entry_eq_of_key_eq {α : Type} {l : List (String × α)} (h : NodupKeys l)
    {e e' : String × α} (he : e ∈ l) (he' : e' ∈ l) (hk : e.1 = e'.1) : e = e' := by
  induction l with
  | nil => simp at he
  | cons a t ih =>
    have hnd : a.1 ∉ mapKeys t ∧ NodupKeys t := by
      simpa [NodupKeys, mapKeys, List.nodup_cons] using h
    rcases List.mem_cons.mp he with rfl | he2 <;> rcases List.mem_cons.mp he' with rfl | he2'
    · rfl
    · exfalso
      apply hnd.1
      rw [hk]
      exact List.mem_map_of_mem Prod.fst he2'
    · exfalso
      apply hnd.1
      rw [← hk]
      exact List.mem_map_of_mem Prod.fst he2
    · exact ih hnd.2 he2 he2'

theorem pair_sublist_of_mem {β : Type} {x y : β} {l : List β}
    (hx : x ∈ l) (hy : y ∈ l) (hxy : x ≠ y) : [x, y] <+ l ∨ [y, x] <+ l := by
  induction l with
  | nil => simp at hx
  | cons a t ih =>
    rcases List.mem_cons.mp hx with rfl | hx2
    · rcases List.mem_cons.mp hy with rfl | hy2
      · exact absurd rfl hxy
      · exact Or.inl (List.Sublist.cons₂ x (List.singleton_sublist.mpr hy2))
    · rcases List.mem_cons.mp hy with rfl | hy2
      · exact Or.inr (List.Sublist.cons₂ y (List.singleton_sublist.mpr hx2))
      · rcases ih hx2 hy2 with h | h
        · exact Or.inl (h.cons a)
        · exact Or.inr (h.cons a)

theorem not_pair_sublist_both {β : Type} {x y : β} {l : List β} (hnd : l.Nodup)
    (hxy : x ≠ y) (h1 : [x, y] <+ l) (h2 : [y, x] <+ l) : False := by
  induction l with
  | nil => simp at h1
  | cons a t ih =>
    rw [List.nodup_cons] at hnd
    cases h1 with
    | cons _ h1' =>
      cases h2 with
      | cons _ h2' => exact ih hnd.2 h1' h2'
      | cons₂ _ h2' => exact hnd.1 (h1'.subset (by simp : y ∈ [x, y]))
    | cons₂ _ h1' =>
      cases h2 with
      | cons _ h2' => exact hnd.1 (h2'.subset (by simp : x ∈ [y, x]))
      | cons₂ _ h2' => exact hxy rfl

theorem mapDelete_eq_filter {α : Type} {l : List (String × α)} (h : NodupKeys l)
    (k : String) : mapDelete k l = l.filter (fun e => decide (e.1 ≠ k)) := by
  induction l with
  | nil => simp [mapDelete]
  | cons a t ih =>
    have hnd : a.1 ∉ mapKeys t ∧ NodupKeys t := by
      simpa [NodupKeys, mapKeys, List.nodup_cons] using h
    by_cases ha : a.1 = k
    · rw [show mapDelete k (a :: t) = t by simp [mapDelete, ha]]
      rw [List.filter_cons_of_neg (by simp [ha])]
      symm
      rw [List.filter_eq_self]
      intro e he
      simp only [decide_eq_true_eq]
      intro hek
      exact hnd.1 (ha ▸ hek ▸ List.mem_map_of_mem Prod.fst he)
    · rw [show mapDelete k (a :: t) = a :: mapDelete k t by simp [mapDelete, ha]]
      rw [List.filter_cons_of_pos (by simp [ha]), ih hnd.2]

theorem nodupKeys_mapDelete {α : Type} {l : List (String × α)} (h : NodupKeys l)
    (k : String) : NodupKeys (mapDelete k l) := by
  rw [mapDelete_eq_filter h]
  exact nodupKeys_filter _ h

theorem foldl_mapDelete_eq_filter {α : Type} (es : List (String × α)) :
    ∀ l : List (String × α), NodupKeys l →
    es.foldl (fun acc e => mapDelete e.1 acc) l
      = l.filter (fun e => decide (e.1 ∉ mapKeys es)) := by
  induction es with
  | nil =>
    intro l _
    simp [mapKeys]
  | cons e0 es' ih =>
    intro l hnd
    rw [List.foldl_cons, ih (mapDelete e0.1 l) (nodupKeys_mapDelete hnd e0.1),
      mapDelete_eq_filter hnd, List.filter_filter]
    apply List.filter_congr
    intro e _
    by_cases h1 : e.1 = e0.1 <;> by_cases h2 : e.1 ∈ es'.map Prod.fst <;>
      simp [mapKeys, h1, h2]

/-- The capacity-eviction pass shared by `cleanupOldBrainrots` and
`cleanupInactivePlayers`: when the map holds more than `cap` entries, sort a
copy of the entries with the given comparator (JS `Array.prototype.sort` is
stable, which `List.insertionSort` models exactly) and delete the first
`size - cap` keys of the sorted copy from the map. -/
def evictBy {α : Type} (le : String × α → String × α → Prop) [DecidableRel le]
    (cap : Nat) (l : List (String × α)) : List (String × α) :=
  if cap < l.length then
    ((List.insertionSort le l).take (l.length - cap)).foldl
      (fun acc e => mapDelete e.1 acc) l
  else l

theorem evictBy_spec {α : Type} (le : String × α → String × α → Prop) [DecidableRel le]
    [IsTotal (String × α) le] [IsTrans (String × α) le]
    {cap : Nat} {l : List (String × α)} (hnd : NodupKeys l) (hlen : cap < l.length) :
    (evictBy le cap l) <+ l ∧ (evictBy le cap l).length = cap ∧
    ∀ e, e ∈ l → e ∉ evictBy le cap l → ∀ e2, e2 ∈ evictBy le cap l →
      le e e2 ∧ (le e2 e → [e, e2] <+ l) := by
  have hperm : List.insertionSort le l ~ l := List.perm_insertionSort le l
  have hkeysperm : mapKeys (List.insertionSort le l) ~ mapKeys l := hperm.map Prod.fst
  have hnds : NodupKeys (List.insertionSort le l) := hkeysperm.nodup_iff.mpr hnd
  set s := List.insertionSort le l with hs
  set kk := l.length - cap with hkk
  set rem := s.take kk with hrem
  have heq : evictBy le cap l = l.filter (fun e => decide (e.1 ∉ mapKeys rem)) := by
    unfold evictBy
    rw [if_pos hlen]
    exact foldl_mapDelete_eq_filter rem l hnd
  have hsplit : rem ++ s.drop kk = s := List.take_append_drop kk s
  have hpw : List.Pairwise le (rem ++ s.drop kk) := by
    rw [hsplit]
    exact List.sorted_insertionSort le l
  have hcross : ∀ x ∈ rem, ∀ y ∈ s.drop kk, le x y :=
    (List.pairwise_append.mp hpw).2.2
  have hkeyssplit : mapKeys rem ++ mapKeys (s.drop kk) = mapKeys s := by
    rw [mapKeys, mapKeys, ← List.map_append, hsplit, mapKeys]
  have hdisj : Disjoint (mapKeys rem) (mapKeys (s.drop kk)) := by
    have := hnds
    rw [NodupKeys, ← hkeyssplit, List.nodup_append] at this
    exact this.2.2
  have hdropmem : ∀ e2, e2 ∈ l → decide (e2.1 ∉ mapKeys rem) = true → e2 ∈ s.drop kk := by
    intro e2 he2 hp
    simp only [decide_eq_true_eq] at hp
    have he2s : e2 ∈ s := hperm.mem_iff.mpr he2
    rcases List.mem_append.mp (hsplit ▸ he2s) with h | h
    · exact absurd (List.mem_map_of_mem Prod.fst h) hp
    · exact h
  have hremmem : ∀ e, e ∈ l → e ∉ evictBy le cap l → e ∈ rem := by
    intro e hel henot
    have hp : ¬ decide (e.1 ∉ mapKeys rem) = true := by
      intro hp
      apply henot
      rw [heq]
      exact List.mem_filter.mpr ⟨hel, hp⟩
    simp only [decide_eq_true_eq, not_not] at hp
    obtain ⟨e', he'rem, he'k⟩ := List.mem_map.mp hp
    have he'l : e' ∈ l := hperm.mem_iff.mp ((List.take_sublist kk s).subset he'rem)
    have : e' = e := entry_eq_of_key_eq hnd he'l hel he'k
    exact this ▸ he'rem
  refine ⟨?_, ?_, ?_⟩
  · rw [heq]
    exact List.filter_sublist l
  · have hlperm : (l.filter fun e => decide (e.1 ∉ mapKeys rem)) ~
        (s.filter fun e => decide (e.1 ∉ mapKeys rem)) :=
      (hperm.filter _).symm
    have hfs : (s.filter fun e => decide (e.1 ∉ mapKeys rem)) = s.drop kk := by
      nth_rewrite 1 [← hsplit]
      rw [List.filter_append]
      have h1 : (rem.filter fun e => decide (e.1 ∉ mapKeys rem)) = [] := by
        rw [List.filter_eq_nil_iff]
        intro e he
        simp only [decide_eq_true_eq, not_not]
        exact List.mem_map_of_mem Prod.fst he
      have h2 : ((s.drop kk).filter fun e => decide (e.1 ∉ mapKeys rem)) = s.drop kk := by
        rw [List.filter_eq_self]
        intro e he
        simp only [decide_eq_true_eq]
        intro hmem
        exact hdisj hmem (List.mem_map_of_mem Prod.fst he)
      rw [h1, h2, List.nil_append]
    rw [heq, hlperm.length_eq, hfs, List.length_drop, List.length_insertionSort]
    omega
  · intro e hel henot e2 he2
    have herem : e ∈ rem := hremmem e hel henot
    rw [heq] at he2
    have he2l : e2 ∈ l := (List.mem_filter.mp he2).1
    have he2p : decide (e2.1 ∉ mapKeys rem) = true := (List.mem_filter.mp he2).2
    have he2drop : e2 ∈ s.drop kk := hdropmem e2 he2l he2p
    refine ⟨hcross e herem e2 he2drop, ?_⟩
    intro hle2
    have hne : e ≠ e2 := by
      intro hcontra
      simp only [decide_eq_true_eq] at he2p
      exact he2p (hcontra ▸ List.mem_map_of_mem Prod.fst herem)
    rcases pair_sublist_of_mem hel he2l hne with h | h
    · exact h
    · exfalso
      have hps : [e2, e] <+ s := List.pair_sublist_insertionSort hle2 h
      have hps2 : [e, e2] <+ s := by
        rw [← hsplit]
        exact List.Sublist.append (List.singleton_sublist.mpr herem)
          (List.singleton_sublist.mpr he2drop)
      exact not_pair_sublist_both (nodup_of_nodupKeys hnds) hne hps2 hps

theorem mapKeys_mapDelete_sublist {α : Type} (k : String) (l : List (String × α)) :
    mapKeys (mapDelete k l) <+ mapKeys l := by
  induction l with
  | nil => simp [mapDelete]
  | cons a t ih =>
    by_cases ha : a.1 = k
    · rw [show mapDelete k (a :: t) = t by simp [mapDelete, ha]]
      exact (List.sublist_cons_self a.1 (mapKeys t)).trans (by simp [mapKeys])
    · rw [show mapDelete k (a :: t) = a :: mapDelete k t by simp [mapDelete, ha]]
      simpa [mapKeys] using ih.cons₂ a.1

theorem mapKeys_foldl_mapDelete_sublist {α : Type} (es : List (String × α)) :
    ∀ l : List (String × α),
      mapKeys (es.foldl (fun acc e => mapDelete e.1 acc) l) <+ mapKeys l := by
  induction es with
  | nil => intro l; simp
  | cons e0 es' ih =>
    intro l
    rw [List.foldl_cons]
    exact (ih (mapDelete e0.1 l)).trans (mapKeys_mapDelete_sublist e0.1 l)

theorem mapKeys_evictBy_sublist {α : Type} (le : String × α → String × α → Prop)
    [DecidableRel le] (cap : Nat) (l : List (String × α)) :
    mapKeys (evictBy le cap l) <+ mapKeys l := by
  unfold evictBy
  split
  · exact mapKeys_foldl_mapDelete_sublist _ l
  · exact List.Sublist.refl _

theorem mapLookup_evictBy_none {α : Type} (le : String × α → String × α → Prop)
    [DecidableRel le] {cap : Nat} {l : List (String × α)} {k : String}
    (h : mapLookup k l = none) : mapLookup k (evictBy le cap l) = none := by
  rw [mapLookup_eq_none] at h ⊢
  intro hmem
  exact h ((mapKeys_evictBy_sublist le cap l).subset hmem)

theorem evictBy_of_le_cap {α : Type} (le : String × α → String × α → Prop)
    [DecidableRel le] {cap : Nat} {l : List (String × α)} (h : ¬ cap < l.length) :
    evictBy le cap l = l := by
  unfold evictBy
  rw [if_neg h]

theorem mapKeys_mapSet {α : Type} (k : String) (v : α) (l : List (String × α)) :
    mapKeys (mapSet k v l)
      = if k ∈ mapKeys l then mapKeys l else mapKeys l ++ [k] := by
  induction l with
  | nil => simp [mapSet, mapKeys]
  | cons a t ih =>
    by_cases ha : a.1 = k
    · have h1 : k ∈ mapKeys (a :: t) := by
        rw [← ha]
        exact List.mem_cons_self a.1 (mapKeys t)
      rw [if_pos h1]
      simp [mapSet, ha, mapKeys]
    · have hne : ¬ k = a.1 := fun h2 => ha h2.symm
      rw [show mapSet k v (a :: t) = a :: mapSet k v t by simp [mapSet, ha]]
      by_cases hk : k ∈ mapKeys t
      · have h1 : k ∈ mapKeys (a :: t) := List.mem_cons_of_mem a.1 hk
        rw [if_pos h1]
        show mapKeys (a :: mapSet k v t) = mapKeys (a :: t)
        simp only [mapKeys, List.map_cons]
        congr 1
        have ih' := ih
        rw [if_pos hk] at ih'
        exact ih'
      · have h1 : k ∉ mapKeys (a :: t) := by
          intro hmem
          rcases List.mem_cons.mp hmem with h2 | h2
          · exact hne h2
          · exact hk h2
        rw [if_neg h1]
        show mapKeys (a :: mapSet k v t) = mapKeys (a :: t) ++ [k]
        simp only [mapKeys, List.map_cons, List.cons_append]
        congr 1
        have ih' := ih
        rw [if_neg hk] at ih'
        exact ih'

theorem nodupKeys_mapSet {α : Type} {l : List (String × α)} (h : NodupKeys l)
    (k : String) (v : α) : NodupKeys (mapSet k v l) := by
  unfold NodupKeys
  rw [mapKeys_mapSet]
  by_cases hk : k ∈ mapKeys l
  · rw [if_pos hk]
    exact h
  · rw [if_neg hk]
    rw [List.nodup_append]
    refine ⟨h, List.nodup_singleton k, ?_⟩
    intro a ha hb
    rw [List.mem_singleton] at hb
    exact hk (hb ▸ ha)

/-! ## The presence registry of `server.js`

A stored brainrot entry (`server.js`, POST `/brainrots`): fields `n` (name),
`s` (serverId), `j` (jobId), `p` (players payload), `m` (moneyPerSec payload),
`t` (lastSeen), `a` (active), `src` (source tag), `f` (firstSeen). -/

structure BR where
  n : String
  s : String
  j : String
  p : Int
  m : Int
  t : Nat
  a : Bool
  src : String
  f : Nat
deriving DecidableEq

/-- `br.active = false` as performed by the cleanup loop. -/
def setInactive (br : BR) : BR := ⟨br.n, br.s, br.j, br.p, br.m, br.t, false, br.src, br.f⟩

theorem setInactive_of_inactive {r : BR} (h : r.a = false) : setInactive r = r := by
  cases r
  simp only at h
  simp [setInactive, h]

/-- One iteration of the demote/delete loop of `cleanupOldBrainrots`: first the
heartbeat check (`br.active && br.lastSeen < heartbeatCutoff` demotes), then the
livetime check (`!br.active && br.lastSeen < livetimeCutoff` deletes) on the
possibly-demoted record.  Timestamps are naturals, so the JS cutoff
`nowTime - TIMEOUT` (never negative in practice) is truncated subtraction. -/
def demote (nowT H : Nat) (br : BR) : BR :=
  if br.a ∧ br.t < nowT - H then setInactive br else br

def sweepEntry (nowT H L : Nat) (e : String × BR) : Option (String × BR) :=
  if ¬ (demote nowT H e.2).a ∧ (demote nowT H e.2).t < nowT - L then none
  else some (e.1, demote nowT H e.2)

/-- The demote/delete loop of `cleanupOldBrainrots` over the whole map. -/
def transitionPass (nowT H L : Nat) (l : List (String × BR)) : List (String × BR) :=
  l.filterMap (sweepEntry nowT H L)

theorem sweepEntry_key {nowT H L : Nat} {e ee : String × BR}
    (h : sweepEntry nowT H L e = some ee) : ee.1 = e.1 := by
  unfold sweepEntry at h
  split at h
  · exact absurd h (by simp)
  · rw [← Option.some.inj h]

theorem mapKeys_transitionPass_sublist (nowT H L : Nat) (l : List (String × BR)) :
    mapKeys (transitionPass nowT H L l) <+ mapKeys l := by
  induction l with
  | nil => simp [transitionPass]
  | cons e t ih =>
    rw [transitionPass, List.filterMap_cons]
    cases hse : sweepEntry nowT H L e with
    | none =>
      show mapKeys (transitionPass nowT H L t) <+ mapKeys (e :: t)
      exact ih.trans (List.sublist_cons_self e.1 (mapKeys t))
    | some ee =>
      show mapKeys (ee :: transitionPass nowT H L t) <+ mapKeys (e :: t)
      have hcons : mapKeys (ee :: transitionPass nowT H L t)
          = e.1 :: mapKeys (transitionPass nowT H L t) := by
        simp [mapKeys, sweepEntry_key hse]
      rw [hcons]
      exact ih.cons₂ e.1

theorem nodupKeys_transitionPass {nowT H L : Nat} {l : List (String × BR)}
    (h : NodupKeys l) : NodupKeys (transitionPass nowT H L l) :=
  List.Nodup.sublist (mapKeys_transitionPass_sublist nowT H L l) h

theorem mapLookup_transitionPass {nowT H L : Nat} {l : List (String × BR)}
    (hnd : NodupKeys l) (k : String) :
    mapLookup k (transitionPass nowT H L l)
      = (mapLookup k l).bind (fun br => (sweepEntry nowT H L (k, br)).map Prod.snd) := by
  induction l with
  | nil => simp [transitionPass, mapLookup]
  | cons e t ih =>
    have hnd2 : e.1 ∉ mapKeys t ∧ NodupKeys t := by
      simpa [NodupKeys, mapKeys, List.nodup_cons] using hnd
    rw [transitionPass, List.filterMap_cons]
    by_cases he : e.1 = k
    · have hpair : (k, e.2) = e := by rw [← he]
      rw [show mapLookup k (e :: t) = some e.2 by simp [mapLookup, he], Option.some_bind, hpair]
      cases hse : sweepEntry nowT H L e with
      | none =>
        have : mapLookup k (transitionPass nowT H L t) = none := by
          rw [mapLookup_eq_none]
          intro hmem
          exact hnd2.1 (he ▸ (mapKeys_transitionPass_sublist nowT H L t).subset hmem)
        simpa [transitionPass] using this
      | some ee =>
        have hk : ee.1 = k := (sweepEntry_key hse).trans he
        simp [mapLookup, hk, hse]
    · rw [show mapLookup k (e :: t) = mapLookup k t by simp [mapLookup, he]]
      cases hse : sweepEntry nowT H L e with
      | none => exact ih hnd2.2
      | some ee =>
        have hk : ¬ ee.1 = k := by
          rw [sweepEntry_key hse]
          exact he
        simpa [mapLookup, hk] using ih hnd2.2

/-- The eviction comparator of `cleanupOldBrainrots`: inactive entries sort
before active ones, then ascending `lastSeen`.  `brLe x y` says the JS
comparator returns a value `<= 0` on `(x, y)`; JS `Array.prototype.sort` is
stable, so ties keep map insertion order. -/
def brLe (x y : String × BR) : Prop :=
  (x.2.a = y.2.a ∧ x.2.t ≤ y.2.t) ∨ (¬ x.2.a = y.2.a ∧ x.2.a = false)

instance : DecidableRel brLe := fun x y => by unfold brLe; infer_instance

instance : IsTotal (String × BR) brLe :=
  ⟨by
    intro x y
    unfold brLe
    cases hx : x.2.a <;> cases hy : y.2.a <;> simp <;> omega⟩

instance : IsTrans (String × BR) brLe :=
  ⟨by
    intro x y z hxy hyz
    unfold brLe at hxy hyz ⊢
    cases hx : x.2.a <;> cases hy : y.2.a <;> cases hz : z.2.a <;>
      simp [hx, hy, hz] at hxy hyz ⊢ <;> omega⟩

/-- `HEARTBEAT_TIMEOUT_MS` of `server.js`. -/
def HEARTBEAT_TIMEOUT_MS : Nat := 30 * 1000

/-- `BRAINROT_LIVETIME_MS` of `server.js`. -/
def BRAINROT_LIVETIME_MS : Nat := 35 * 1000

/-- `MAX_BRAINROTS` of `server.js`. -/
def MAX_BRAINROTS : Nat := 150

/-- `cleanupOldBrainrots` with the timeouts and the capacity as parameters:
the demote/delete loop followed by the capacity eviction block. -/
def brainrotSweep (nowT H L cap : Nat) (l : List (String × BR)) : List (String × BR) :=
  evictBy brLe cap (transitionPass nowT H L l)

/-- `cleanupOldBrainrots` of `server.js` (lines 83-117). -/
def cleanupOldBrainrots (nowT : Nat) (l : List (String × BR)) : List (String × BR) :=
  brainrotSweep nowT HEARTBEAT_TIMEOUT_MS BRAINROT_LIVETIME_MS MAX_BRAINROTS l

theorem demote_of_stale {nowT H : Nat} {r : BR} (h : r.t + H < nowT) :
    demote nowT H r = setInactive r := by
  unfold demote
  by_cases hra : r.a
  · rw [if_pos ⟨hra, by omega⟩]
  · have hf : r.a = false := by revert hra; cases r.a <;> simp
    rw [if_neg (fun hc => hra hc.1), setInactive_of_inactive hf]

/-- A record silent for more than `H` but at most `L` is demoted but kept. -/
theorem mapLookup_transitionPass_mid {nowT H L : Nat} {l : List (String × BR)}
    (hnd : NodupKeys l) {k : String} {r : BR} (hk : mapLookup k l = some r)
    (hH : r.t + H < nowT) (hL : nowT ≤ r.t + L) :
    mapLookup k (transitionPass nowT H L l) = some (setInactive r) := by
  have hnotdel : ¬ (¬ (setInactive r).a = true ∧ (setInactive r).t < nowT - L) := by
    intro hc
    have h2 : r.t < nowT - L := hc.2
    omega
  rw [mapLookup_transitionPass hnd k, hk, Option.some_bind]
  unfold sweepEntry
  rw [demote_of_stale hH, if_neg hnotdel]
  simp

/-- A record silent for more than `L > H` is demoted and then deleted in the
same pass. -/
theorem mapLookup_transitionPass_dead {nowT H L : Nat} {l : List (String × BR)}
    (hnd : NodupKeys l) {k : String} {r : BR} (hk : mapLookup k l = some r)
    (hHL : H < L) (hL : r.t + L < nowT) :
    mapLookup k (transitionPass nowT H L l) = none := by
  have hH : r.t + H < nowT := by omega
  have hdel : ¬ (setInactive r).a = true ∧ (setInactive r).t < nowT - L := by
    constructor
    · simp [setInactive]
    · show r.t < nowT - L
      omega
  rw [mapLookup_transitionPass hnd k, hk, Option.some_bind]
  unfold sweepEntry
  rw [demote_of_stale hH, if_pos hdel]
  simp

theorem length_transitionPass_le (nowT H L : Nat) (l : List (String × BR)) :
    (transitionPass nowT H L l).length ≤ l.length :=
  List.length_filterMap_le _ l

/-! ## HTTP handlers of `server.js` -/

inductive IngestResult where
  | ok
  | badReq
deriving DecidableEq

/-- JS `typeof x === "string" ? x.trim() : ""`: a missing or non-string field
normalises to the empty string, a string field is trimmed. -/
def normField : Option String → String
  | some s => jsTrim s
  | none => ""

/-- The composite identity key of a presence record. -/
def brKeyOf (name serverId jobId : String) : String :=
  serverId ++ "_" ++ jsToLower name ++ "_" ++ jobId

/-- Body of a POST `/brainrots` request: the three identity fields may be
absent (or non-string, which the source treats the same way), the two payload
fields are passed through. -/
structure IngestReq where
  name : Option String
  serverId : Option String
  jobId : Option String
  players : Int
  moneyPerSec : Int
deriving DecidableEq

def ingestKey (req : IngestReq) : String :=
  brKeyOf (normField req.name) (normField req.serverId) (normField req.jobId)

/-- POST `/brainrots` (`server.js` lines 163-190): validation, entry
construction and `brainrots.set`, before the inline `cleanupOldBrainrots`
call.  `firstSeen` is `existing?.f || now()`, so a stored `f` of `0` (falsy)
is also replaced by `now()`. -/
def upsertBrainrot (nowT : Nat) (src : String) (req : IngestReq)
    (store : List (String × BR)) : IngestResult × List (String × BR) :=
  if normField req.name = "" ∨ normField req.serverId = "" ∨ normField req.jobId = "" then
    (IngestResult.badReq, store)
  else
    (IngestResult.ok,
      mapSet (ingestKey req)
        ⟨normField req.name, normField req.serverId, normField req.jobId,
          req.players, req.moneyPerSec, nowT, true, src,
          match mapLookup (ingestKey req) store with
          | some e => if e.f = 0 then nowT else e.f
          | none => nowT⟩
        store)

/-- The whole POST `/brainrots` handler: upsert, then the inline sweep. -/
def postBrainrots (nowT : Nat) (src : String) (req : IngestReq)
    (store : List (String × BR)) : IngestResult × List (String × BR) :=
  match upsertBrainrot nowT src req store with
  | (IngestResult.badReq, st) => (IngestResult.badReq, st)
  | (IngestResult.ok, st) => (IngestResult.ok, cleanupOldBrainrots nowT st)

/-- One element of the GET `/brainrots` response body (`server.js` lines
199-212): the serialized fields of an active record, including `t`
(`lastSeen`) verbatim. -/
structure BRWire where
  n : String
  s : String
  j : String
  p : Int
  m : Int
  t : Nat
  src : String
deriving DecidableEq

def brToWire (br : BR) : BRWire := ⟨br.n, br.s, br.j, br.p, br.m, br.t, br.src⟩

/-- The serialized active-set snapshot of GET `/brainrots`.  The endpoint
hashes `JSON.stringify` of exactly this list into the ETag, so we model the
fingerprint by the snapshot itself: equal snapshots serialize equally and get
equal ETags. -/
def snapshotActiveBR (store : List (String × BR)) : List BRWire :=
  (store.filter (fun e => e.2.a)).map (fun e => brToWire e.2)

/-- Response of DELETE `/brainrots`: `{success: true, c: count}`. -/
structure ClearResp where
  success : Bool
  c : Nat
deriving DecidableEq

/-- DELETE `/brainrots` (`server.js` lines 293-297): read the size, clear the
map, answer with the old size. -/
def deleteBrainrots (store : List (String × BR)) : ClearResp × List (String × BR) :=
  (⟨true, store.length⟩, [])

/-! ## The player registry of `server.js` -/

structure PRec where
  username : String
  serverId : String
  jobId : String
  placeId : String
  lastSeen : Nat
deriving DecidableEq

/-- `PLAYER_TIMEOUT_MS` of `server.js`. -/
def PLAYER_TIMEOUT_MS : Nat := 30 * 1000

/-- `MAX_PLAYERS` of `server.js`. -/
def MAX_PLAYERS : Nat := 75

/-- Player eviction comparator: ascending `lastSeen`. -/
def playerLe (x y : String × PRec) : Prop := x.2.lastSeen ≤ y.2.lastSeen

instance : DecidableRel playerLe := fun x y => by unfold playerLe; infer_instance

instance : IsTotal (String × PRec) playerLe := ⟨fun x y => Nat.le_total x.2.lastSeen y.2.lastSeen⟩

instance : IsTrans (String × PRec) playerLe := ⟨fun _ _ _ => Nat.le_trans⟩

/-- `cleanupInactivePlayers` of `server.js` (lines 60-81): delete players not
seen within `PLAYER_TIMEOUT_MS`, then evict the oldest beyond `MAX_PLAYERS`. -/
def cleanupInactivePlayers (nowT : Nat) (store : List (String × PRec)) :
    List (String × PRec) :=
  evictBy playerLe MAX_PLAYERS
    (store.filter (fun e => decide (¬ e.2.lastSeen < nowT - PLAYER_TIMEOUT_MS)))

/-- Body of POST `/players/heartbeat`.  The handler checks plain JS truthiness
(`!username || !serverId || !jobId`), with no trimming. -/
structure HBReq where
  username : Option String
  serverId : Option String
  jobId : Option String
  placeId : Option String
deriving DecidableEq

/-- JS falsiness of an optional string field: absent or the empty string. -/
def falsyStr : Option String → Bool
  | none => true
  | some s => decide (s = "")

def playerKey (username serverId jobId : String) : String :=
  jsToLower username ++ "_" ++ serverId ++ "_" ++ jobId

/-- POST `/players/heartbeat` (`server.js` lines 120-140).  `placeId` defaults
to `serverId` through `placeId || serverId` when absent or falsy. -/
def postPlayersHeartbeat (nowT : Nat) (req : HBReq) (store : List (String × PRec)) :
    Bool × List (String × PRec) :=
  if falsyStr req.username ∨ falsyStr req.serverId ∨ falsyStr req.jobId then
    (false, store)
  else
    (true, cleanupInactivePlayers nowT
      (mapSet (playerKey (req.username.getD "") (req.serverId.getD "") (req.jobId.getD ""))
        ⟨req.username.getD "", req.serverId.getD "", req.jobId.getD "",
          match req.placeId with
          | none => req.serverId.getD ""
          | some p => if p = "" then req.serverId.getD "" else p,
          nowT⟩
        store))

/-- One element of the GET `/players/active` body (`server.js` lines 145-151):
`t` is `Math.floor((now - lastSeen) / 1000)`, whole seconds only. -/
structure PWire where
  u : String
  s : String
  j : String
  p : String
  t : Nat
deriving DecidableEq

def playerToWire (nowT : Nat) (r : PRec) : PWire :=
  ⟨r.username, r.serverId, r.jobId, r.placeId, (nowT - r.lastSeen) / 1000⟩

/-- The serialized snapshot of GET `/players/active`; the md5 ETag is computed
from `JSON.stringify` of exactly this list, so equal lists get equal ETags. -/
def snapshotActivePlayers (nowT : Nat) (store : List (String × PRec)) : List PWire :=
  store.map (fun e => playerToWire nowT e.2)

/-- The whole GET `/players/active` handler body: inline cleanup, then the
snapshot. -/
def listActivePlayers (nowT : Nat) (store : List (String × PRec)) : List PWire :=
  snapshotActivePlayers nowT (cleanupInactivePlayers nowT store)

/-! ## The force-join command queue (the variant with `/forcejoin` routes) -/

/-- `FORCE_JOIN_EXPIRE_MS`. -/
def FORCE_JOIN_EXPIRE_MS : Nat := 60 * 1000

/-- A stored force-join command. -/
structure FJCmd where
  placeId : String
  jobId : String
  timestamp : Nat
  issuer : String
  executed : Bool
  executedAt : Option Nat
deriving DecidableEq

/-- `cleanupForceJoinCommands`: delete commands older than the TTL. -/
def cleanupForceJoinCommands (nowT : Nat) (q : List (String × FJCmd)) :
    List (String × FJCmd) :=
  q.filter (fun e => decide (¬ e.2.timestamp < nowT - FORCE_JOIN_EXPIRE_MS))

/-- Body of POST `/forcejoin`: `targetUsernames` may be absent, one string, or
an array of strings (a JS array is truthy even when empty). -/
structure FJIssueReq where
  targetUsernames : Option (Sum String (List String))
  placeId : Option String
  jobId : Option String
  issuer : Option String
deriving DecidableEq

/-- JS falsiness of the `targetUsernames` field. -/
def falsyTU : Option (Sum String (List String)) → Bool
  | none => true
  | some (Sum.inl s) => decide (s = "")
  | some (Sum.inr _) => false

/-- The username list the handler iterates over. -/
def fjUsernames : Option (Sum String (List String)) → List String
  | some (Sum.inl s) => [s]
  | some (Sum.inr l) => l
  | none => []

/-- POST `/forcejoin`: validate, store one pending command per username
(keyed by `username.toLowerCase().trim()`, `executed: false`,
`issuer || 'admin'`), then run the TTL cleanup. -/
def issueForceJoin (nowT : Nat) (req : FJIssueReq) (q : List (String × FJCmd)) :
    Bool × List (String × FJCmd) :=
  if falsyTU req.targetUsernames ∨ falsyStr req.placeId ∨ falsyStr req.jobId then
    (false, q)
  else
    (true, cleanupForceJoinCommands nowT
      ((fjUsernames req.targetUsernames).foldl
        (fun acc u => mapSet (jsTrim (jsToLower u))
          ⟨req.placeId.getD "", req.jobId.getD "", nowT,
            match req.issuer with
            | none => "admin"
            | some s => if s = "" then "admin" else s,
            false, none⟩ acc)
        q))

/-- The payload of a delivered force-join command. -/
structure FJPayload where
  placeId : String
  jobId : String
  issuer : String
deriving DecidableEq

/-- GET `/forcejoin/:username`: TTL cleanup, then if a pending non-executed
command exists, mark it executed in place and return its payload, otherwise
report no command. -/
def consumeForceJoin (nowT : Nat) (uname : String) (q : List (String × FJCmd)) :
    Option FJPayload × List (String × FJCmd) :=
  match mapLookup (jsTrim (jsToLower uname)) (cleanupForceJoinCommands nowT q) with
  | some cmd =>
    if cmd.executed then (none, cleanupForceJoinCommands nowT q)
    else
      (some ⟨cmd.placeId, cmd.jobId, cmd.issuer⟩,
        mapSet (jsTrim (jsToLower uname))
          ⟨cmd.placeId, cmd.jobId, cmd.timestamp, cmd.issuer, true, some nowT⟩
          (cleanupForceJoinCommands nowT q))
  | none => (none, cleanupForceJoinCommands nowT q)

/-- A chain of consume calls at successive times, returning each call's
payload result. -/
def consumeChain (uname : String) : List Nat → List (String × FJCmd) → List (Option FJPayload)
  | [], _ => []
  | t :: ts, q => (consumeForceJoin t uname q).1 :: consumeChain uname ts (consumeForceJoin t uname q).2

/-! ## The rate-limited variant (`part_001`): POST `/brainrots` with a 5-second
per-record throttle and no capacity eviction -/

structure BR1 where
  name : String
  serverId : String
  jobId : String
  lastSeen : Nat
  active : Bool
  lastIP : String
  source : String
  firstSeen : Nat
deriving DecidableEq

/-- `HEARTBEAT_TIMEOUT_MS` of the rate-limited variant (60 s). -/
def RL_HEARTBEAT_TIMEOUT_MS : Nat := 60 * 1000

/-- `BRAINROT_LIVETIME_MS` of the rate-limited variant (5 min). -/
def RL_BRAINROT_LIVETIME_MS : Nat := 300 * 1000

def demoteRL (nowT : Nat) (br : BR1) : BR1 :=
  if br.active ∧ br.lastSeen < nowT - RL_HEARTBEAT_TIMEOUT_MS then
    ⟨br.name, br.serverId, br.jobId, br.lastSeen, false, br.lastIP, br.source, br.firstSeen⟩
  else br

def sweepEntryRL (nowT : Nat) (e : String × BR1) : Option (String × BR1) :=
  if ¬ (demoteRL nowT e.2).active ∧
      (demoteRL nowT e.2).lastSeen < nowT - RL_BRAINROT_LIVETIME_MS then none
  else some (e.1, demoteRL nowT e.2)

/-- `cleanupOldBrainrots` of the rate-limited variant: demote/delete only,
no capacity limit. -/
def cleanupOldBrainrotsRL (nowT : Nat) (store : List (String × BR1)) :
    List (String × BR1) :=
  store.filterMap (sweepEntryRL nowT)

inductive RLResult where
  | badReq
  | ignored
  | ok
deriving DecidableEq

structure RLReq where
  name : Option String
  serverId : Option String
  jobId : Option String
deriving DecidableEq

def rlKey (req : RLReq) : String :=
  brKeyOf (normField req.name) (normField req.serverId) (normField req.jobId)

/-- POST `/brainrots` of the rate-limited variant (`part_001` lines 77-117,
after the per-IP limiter): validation, then the per-record throttle — an
existing record updated less than 5000 ms ago answers
`{success: true, ignored: true}` and returns before anything is written and
before the cleanup runs — then the write and the inline cleanup. -/
def postBrainrotsRL (nowT : Nat) (ip src : String) (req : RLReq)
    (store : List (String × BR1)) : RLResult × List (String × BR1) :=
  if normField req.name = "" ∨ normField req.serverId = "" ∨ normField req.jobId = "" then
    (RLResult.badReq, store)
  else
    match mapLookup (rlKey req) store with
    | some e =>
      if nowT - e.lastSeen < 5000 then (RLResult.ignored, store)
      else
        (RLResult.ok, cleanupOldBrainrotsRL nowT
          (mapSet (rlKey req)
            ⟨normField req.name, normField req.serverId, normField req.jobId,
              nowT, true, ip, src,
              if e.firstSeen = 0 then nowT else e.firstSeen⟩ store))
    | none =>
      (RLResult.ok, cleanupOldBrainrotsRL nowT
        (mapSet (rlKey req)
          ⟨normField req.name, normField req.serverId, normField req.jobId,
            nowT, true, ip, src, nowT⟩ store))

/-! ## Auxiliary size and membership lemmas -/

theorem length_mapSet_le {α : Type} (k : String) (v : α) (l : List (String × α)) :
    (mapSet k v l).length ≤ l.length + 1 := by
  induction l with
  | nil => simp [mapSet]
  | cons e t ih =>
    by_cases he : e.1 = k
    · simp [mapSet, he]
    · simp only [mapSet, if_neg he, List.length_cons]
      omega

theorem length_mapDelete_le {α : Type} (k : String) (l : List (String × α)) :
    (mapDelete k l).length ≤ l.length := by
  induction l with
  | nil => simp [mapDelete]
  | cons e t ih =>
    by_cases he : e.1 = k
    · simp only [mapDelete, if_pos he, List.length_cons]
      omega
    · simp only [mapDelete, if_neg he, List.length_cons]
      omega

theorem length_foldl_mapDelete_le {α : Type} (es : List (String × α)) :
    ∀ l : List (String × α),
      (es.foldl (fun acc e => mapDelete e.1 acc) l).length ≤ l.length := by
  induction es with
  | nil => intro l; simp
  | cons e0 es' ih =>
    intro l
    rw [List.foldl_cons]
    exact (ih (mapDelete e0.1 l)).trans (length_mapDelete_le e0.1 l)

theorem length_evictBy_le {α : Type} (le : String × α → String × α → Prop)
    [DecidableRel le] (cap : Nat) (l : List (String × α)) :
    (evictBy le cap l).length ≤ l.length := by
  unfold evictBy
  split
  · exact length_foldl_mapDelete_le _ l
  · exact Nat.le_refl _

theorem nodupKeys_evictBy {α : Type} (le : String × α → String × α → Prop)
    [DecidableRel le] (cap : Nat) {l : List (String × α)} (h : NodupKeys l) :
    NodupKeys (evictBy le cap l) :=
  List.Nodup.sublist (mapKeys_evictBy_sublist le cap l) h

theorem mem_mapSet {α : Type} {e : String × α} {k : String} {v : α} {l : List (String × α)}
    (h : e ∈ mapSet k v l) : e = (k, v) ∨ e ∈ l := by
  induction l with
  | nil => simpa [mapSet] using h
  | cons a t ih =>
    by_cases ha : a.1 = k
    · rw [show mapSet k v (a :: t) = (k, v) :: t by simp [mapSet, ha]] at h
      rcases List.mem_cons.mp h with h2 | h2
      · exact Or.inl h2
      · exact Or.inr (List.mem_cons_of_mem a h2)
    · rw [show mapSet k v (a :: t) = a :: mapSet k v t by simp [mapSet, ha]] at h
      rcases List.mem_cons.mp h with h2 | h2
      · exact Or.inr (h2 ▸ List.mem_cons_self a t)
      · rcases ih h2 with h3 | h3
        · exact Or.inl h3
        · exact Or.inr (List.mem_cons_of_mem a h3)

theorem mem_mapSet_key {α : Type} {l : List (String × α)} (hnd : NodupKeys l)
    {k : String} {v : α} {e : String × α} (he : e ∈ mapSet k v l) (hk : e.1 = k) :
    e = (k, v) := by
  induction l with
  | nil => simpa [mapSet] using he
  | cons a t ih =>
    have hnd2 : a.1 ∉ mapKeys t ∧ NodupKeys t := by
      simpa [NodupKeys, mapKeys, List.nodup_cons] using hnd
    by_cases ha : a.1 = k
    · rw [show mapSet k v (a :: t) = (k, v) :: t by simp [mapSet, ha]] at he
      rcases List.mem_cons.mp he with h2 | h2
      · exact h2
      · exfalso
        apply hnd2.1
        rw [ha, ← hk]
        exact List.mem_map_of_mem Prod.fst h2
    · rw [show mapSet k v (a :: t) = a :: mapSet k v t by simp [mapSet, ha]] at he
      rcases List.mem_cons.mp he with h2 | h2
      · exact absurd (h2 ▸ hk) ha
      · exact ih hnd2.2 h2

/-- A record refreshed at `nowT` survives `cleanupInactivePlayers` run at
`nowT` whenever the store is within capacity. -/
theorem mapLookup_cleanupPlayers_fresh {nowT : Nat} {st : List (String × PRec)}
    {k : String} {r : PRec} (hlen : st.length ≤ MAX_PLAYERS)
    (hk : mapLookup k st = some r) (hfresh : ¬ r.lastSeen < nowT - PLAYER_TIMEOUT_MS) :
    mapLookup k (cleanupInactivePlayers nowT st) = some r := by
  unfold cleanupInactivePlayers
  have hnc : ¬ MAX_PLAYERS <
      (st.filter (fun e => decide (¬ e.2.lastSeen < nowT - PLAYER_TIMEOUT_MS))).length := by
    have := List.length_filter_le
      (fun e : String × PRec => decide (¬ e.2.lastSeen < nowT - PLAYER_TIMEOUT_MS)) st
    omega
  rw [evictBy_of_le_cap playerLe hnc]
  exact mapLookup_filter _ hk (by simpa using hfresh)

/-! ## Claim theorems -/

/-- Claim C7: for every store state, the clear operation (DELETE `/brainrots`)
removes all records — the resulting store has size 0 and every lookup misses —
and returns to the caller the count of removed records, equal to the store
size immediately before the call. -/
theorem clear_spec (store : List (String × BR)) :
    (deleteBrainrots store).2.length = 0 ∧
    (∀ k, mapLookup k (deleteBrainrots store).2 = none) ∧
    (deleteBrainrots store).1.c = store.length := by
  refine ⟨rfl, ?_, rfl⟩
  intro k
  rfl

/-- Claim C4: for every valid ingest (one that passes validation), the upsert
call itself — validation, entry construction and `brainrots.set`, before the
inline sweep — removes no record other than (possibly replacing) the ingested
key: every record under a different key is still present, unchanged,
immediately after the upsert returns. -/
theorem upsert_frame (nowT : Nat) (src : String) (req : IngestReq)
    (store : List (String × BR)) (k' : String)
    (hval : (upsertBrainrot nowT src req store).1 = IngestResult.ok)
    (hk : k' ≠ ingestKey req) :
    mapLookup k' (upsertBrainrot nowT src req store).2 = mapLookup k' store := by
  unfold upsertBrainrot at hval ⊢
  by_cases hv : normField req.name = "" ∨ normField req.serverId = "" ∨ normField req.jobId = ""
  · rw [if_pos hv] at hval
    simp at hval
  · rw [if_neg hv]
    exact mapLookup_mapSet_ne _ store hk

def c4Req : IngestReq := ⟨some "N", some "srv", some "job", 3, 7⟩

def c4Other : BR := ⟨"o", "s2", "j2", 1, 1, 4, true, "lua", 4⟩

theorem upsert_frame_witness :
    (upsertBrainrot 5 "lua" c4Req [("other", c4Other)]).1 = IngestResult.ok ∧
    "other" ≠ ingestKey c4Req ∧
    mapLookup "other" (upsertBrainrot 5 "lua" c4Req [("other", c4Other)]).2
      = mapLookup "other" [("other", c4Other)] :=
  ⟨by decide, by decide,
    upsert_frame 5 "lua" c4Req [("other", c4Other)] "other" (by decide) (by decide)⟩

/-- Claim C10: in the rate-limited variant (`part_001`), an ingest whose
identity already exists with `now - lastSeen < 5000` ms answers success with
the `ignored` flag and leaves the whole store untouched — `lastSeen` is not
refreshed, `active` is not flipped, no field is merged, and the inline cleanup
does not even run. -/
theorem throttled_ingest_frame (nowT : Nat) (ip src : String) (req : RLReq)
    (store : List (String × BR1)) (e : BR1)
    (h1 : ¬ (normField req.name = "" ∨ normField req.serverId = "" ∨ normField req.jobId = ""))
    (hk : mapLookup (rlKey req) store = some e)
    (ht : nowT - e.lastSeen < 5000) :
    postBrainrotsRL nowT ip src req store = (RLResult.ignored, store) := by
  unfold postBrainrotsRL
  rw [if_neg h1, hk]
  simp [ht]

def c10Req : RLReq := ⟨some "n", some "s", some "j"⟩

def c10Rec : BR1 := ⟨"n", "s", "j", 100, true, "ip0", "lua-script", 100⟩

theorem throttled_ingest_frame_witness :
    ¬ (normField c10Req.name = "" ∨ normField c10Req.serverId = ""
        ∨ normField c10Req.jobId = "") ∧
    mapLookup (rlKey c10Req) [("s_n_j", c10Rec)] = some c10Rec ∧
    4000 - c10Rec.lastSeen < 5000 ∧
    postBrainrotsRL 4000 "ip1" "lua-script" c10Req [("s_n_j", c10Rec)]
      = (RLResult.ignored, [("s_n_j", c10Rec)]) :=
  ⟨by decide, by decide, by decide,
    throttled_ingest_frame 4000 "ip1" "lua-script" c10Req [("s_n_j", c10Rec)] c10Rec
      (by decide) (by decide) (by decide)⟩

/-- Claim C8: a record that is active at the start of a sweep and whose
silence `now - lastSeen` exceeds the livetime timeout `L` (itself larger than
the heartbeat timeout `H`) is demoted and deleted by the same pass — the
deletion check of each loop iteration runs after the demotion check — so it
never survives the sweep as a visible inactive record. -/
theorem stale_active_deleted_in_one_sweep (nowT H L cap : Nat)
    (l : List (String × BR)) (k : String) (r : BR)
    (hnd : NodupKeys l) (hk : mapLookup k l = some r) (_hra : r.a = true)
    (hHL : H < L) (hL : r.t + L < nowT) :
    mapLookup k (brainrotSweep nowT H L cap l) = none := by
  unfold brainrotSweep
  exact mapLookup_evictBy_none brLe (mapLookup_transitionPass_dead hnd hk hHL hL)

def c8Rec : BR := ⟨"n", "s", "j", 0, 0, 60000, true, "lua", 1⟩

theorem stale_active_deleted_in_one_sweep_witness :
    NodupKeys [("k", c8Rec)] ∧ mapLookup "k" [("k", c8Rec)] = some c8Rec ∧
    c8Rec.a = true ∧ HEARTBEAT_TIMEOUT_MS < BRAINROT_LIVETIME_MS ∧
    c8Rec.t + BRAINROT_LIVETIME_MS < 100000 ∧
    mapLookup "k" (brainrotSweep 100000 HEARTBEAT_TIMEOUT_MS BRAINROT_LIVETIME_MS
      MAX_BRAINROTS [("k", c8Rec)]) = none :=
  ⟨by decide, by decide, by decide, by decide, by decide,
    stale_active_deleted_in_one_sweep 100000 HEARTBEAT_TIMEOUT_MS BRAINROT_LIVETIME_MS
      MAX_BRAINROTS [("k", c8Rec)] "k" c8Rec (by decide) (by decide) (by decide)
      (by decide) (by decide)⟩

def c1Rec : BR := ⟨"n", "s", "j", 0, 0, 70000, true, "lua", 1⟩

def c1RecL : BR := ⟨"n", "s", "j", 0, 0, 65000, true, "lua", 1⟩

/-- Claim C1 counterexample, refuting both boundaries of the claim.  A record
untouched for exactly `t = H` (`lastSeen = 70000`, sweep at `now = 100000`,
`H = 30000`, so `H <= t < L`) survives `cleanupOldBrainrots` completely
unchanged and in particular still has `active = true`, while the claim
requires `active = false`; and a record untouched for exactly `t = L`
(`lastSeen = 65000`, so `t = 35000 = L`) is still present (demoted) after the
sweep, while the claim requires it absent for `t >= L`.  Both cleanup
comparisons (`lastSeen < now - H`, `lastSeen < now - L`) are strict. -/
theorem c1_counterexample :
    (100000 - c1Rec.t = HEARTBEAT_TIMEOUT_MS ∧
      100000 - c1Rec.t < BRAINROT_LIVETIME_MS ∧
      cleanupOldBrainrots 100000 [("k", c1Rec)] = [("k", c1Rec)] ∧
      c1Rec.a = true) ∧
    (100000 - c1RecL.t = BRAINROT_LIVETIME_MS ∧
      cleanupOldBrainrots 100000 [("k", c1RecL)] = [("k", setInactive c1RecL)]) := by decide

/-- Claim C1 (amended): two-stage expiry with the strict bounds the code
implements.  For a record whose identity has not been upserted or marked
inactive for a duration `t = now - lastSeen`, with `H < L` and the store
within capacity, a sweep leaves the record present with `active = false`
whenever `H < t <= L`, and removes it whenever `t > L`.  (The frozen claim
used `H <= t < L` / `t >= L`; at `t = H` the record is still active and at
`t = L` it is still present, because both cleanup comparisons are strict.) -/
theorem brainrot_two_stage_expiry (nowT H L cap : Nat) (l : List (String × BR))
    (k : String) (r : BR) (hnd : NodupKeys l) (hcap : l.length ≤ cap)
    (hk : mapLookup k l = some r) (hHL : H < L) :
    (r.t + H < nowT → nowT ≤ r.t + L →
      mapLookup k (brainrotSweep nowT H L cap l) = some (setInactive r)) ∧
    (r.t + L < nowT → mapLookup k (brainrotSweep nowT H L cap l) = none) := by
  constructor
  · intro hH hL
    unfold brainrotSweep
    rw [evictBy_of_le_cap brLe (by
      have := length_transitionPass_le nowT H L l
      omega)]
    exact mapLookup_transitionPass_mid hnd hk hH hL
  · intro hL
    unfold brainrotSweep
    exact mapLookup_evictBy_none brLe (mapLookup_transitionPass_dead hnd hk hHL hL)

def c1Rec2 : BR := ⟨"n", "s", "j", 0, 0, 60000, true, "lua", 1⟩

theorem brainrot_two_stage_expiry_witness :
    NodupKeys [("k", c1Rec2)] ∧ [("k", c1Rec2)].length ≤ MAX_BRAINROTS ∧
    mapLookup "k" [("k", c1Rec2)] = some c1Rec2 ∧
    HEARTBEAT_TIMEOUT_MS < BRAINROT_LIVETIME_MS ∧
    mapLookup "k" (brainrotSweep 95000 HEARTBEAT_TIMEOUT_MS BRAINROT_LIVETIME_MS
      MAX_BRAINROTS [("k", c1Rec2)]) = some (setInactive c1Rec2) ∧
    mapLookup "k" (brainrotSweep 100001 HEARTBEAT_TIMEOUT_MS BRAINROT_LIVETIME_MS
      MAX_BRAINROTS [("k", c1Rec2)]) = none :=
  ⟨by decide, by decide, by decide, by decide,
    (brainrot_two_stage_expiry 95000 HEARTBEAT_TIMEOUT_MS BRAINROT_LIVETIME_MS
      MAX_BRAINROTS [("k", c1Rec2)] "k" c1Rec2 (by decide) (by decide) (by decide)
      (by decide)).1 (by decide) (by decide),
    (brainrot_two_stage_expiry 100001 HEARTBEAT_TIMEOUT_MS BRAINROT_LIVETIME_MS
      MAX_BRAINROTS [("k", c1Rec2)] "k" c1Rec2 (by decide) (by decide) (by decide)
      (by decide)).2 (by decide)⟩

def c3Rec : BR := ⟨"n", "s", "j", 0, 0, 50, true, "lua", 1⟩

/-- Claim C3 counterexample: two stores holding the same two records (same
active state, equal `lastSeen`) under keys "b" and "a", differing only in
insertion order, with capacity 1.  The sweep keeps "a" in one and "b" in the
other: the tie is broken by map insertion order (JS sort is stable), not by
identity string ordering, which would keep the same record in both stores
(evicting "a", the identity-least, first). -/
theorem c3_counterexample :
    evictBy brLe 1 [("b", c3Rec), ("a", c3Rec)] = [("a", c3Rec)] ∧
    evictBy brLe 1 [("a", c3Rec), ("b", c3Rec)] = [("b", c3Rec)] := by decide

/-- Claim C3 (amended): whenever the store holds more than capacity `C`
records at eviction time, the eviction pass removes exactly `size - C` of
them, leaving exactly `C`; it never removes an active record while keeping an
inactive one; within each active-state group removal is by ascending
`lastSeen` (a removed record's `lastSeen` is at most that of any kept record
of the same group); and ties on equal (`active`, `lastSeen`) are broken by
map insertion order — a removed record precedes every kept tied record in the
store — not by identity string ordering. -/
theorem eviction_ordering (cap : Nat) (l : List (String × BR)) (hnd : NodupKeys l)
    (hlen : cap < l.length) :
    (evictBy brLe cap l) <+ l ∧
    (evictBy brLe cap l).length = cap ∧
    ∀ e, e ∈ l → e ∉ evictBy brLe cap l → ∀ e2, e2 ∈ evictBy brLe cap l →
      (e.2.a = true → e2.2.a = true) ∧
      (e.2.a = e2.2.a → e.2.t ≤ e2.2.t) ∧
      (e.2.a = e2.2.a → e.2.t = e2.2.t → [e, e2] <+ l) := by
  obtain ⟨hsub, hlen2, hmem⟩ := evictBy_spec brLe hnd hlen
  refine ⟨hsub, hlen2, ?_⟩
  intro e hel henot e2 he2
  obtain ⟨hle, htie⟩ := hmem e hel henot e2 he2
  unfold brLe at hle
  refine ⟨?_, ?_, ?_⟩
  · intro ha
    rcases hle with ⟨heq2, _⟩ | ⟨_, hfa⟩
    · rw [← heq2, ha]
    · rw [ha] at hfa
      exact absurd hfa (by simp)
  · intro heq2
    rcases hle with ⟨_, hts⟩ | ⟨hne2, _⟩
    · exact hts
    · exact absurd heq2 hne2
  · intro heq2 hteq
    apply htie
    unfold brLe
    exact Or.inl ⟨heq2.symm, Nat.le_of_eq hteq.symm⟩

def c3wIn : BR := ⟨"y", "s", "j", 0, 0, 99, false, "lua", 1⟩

def c3wOld : BR := ⟨"z", "s", "j", 0, 0, 5, true, "lua", 1⟩

def c3wNew : BR := ⟨"x", "s", "j", 0, 0, 10, true, "lua", 1⟩

theorem eviction_ordering_witness :
    NodupKeys [("x", c3wNew), ("y", c3wIn), ("z", c3wOld)] ∧
    1 < [("x", c3wNew), ("y", c3wIn), ("z", c3wOld)].length ∧
    ((evictBy brLe 1 [("x", c3wNew), ("y", c3wIn), ("z", c3wOld)])
        <+ [("x", c3wNew), ("y", c3wIn), ("z", c3wOld)] ∧
      (evictBy brLe 1 [("x", c3wNew), ("y", c3wIn), ("z", c3wOld)]).length = 1 ∧
      ∀ e, e ∈ [("x", c3wNew), ("y", c3wIn), ("z", c3wOld)] →
        e ∉ evictBy brLe 1 [("x", c3wNew), ("y", c3wIn), ("z", c3wOld)] →
        ∀ e2, e2 ∈ evictBy brLe 1 [("x", c3wNew), ("y", c3wIn), ("z", c3wOld)] →
          (e.2.a = true → e2.2.a = true) ∧
          (e.2.a = e2.2.a → e.2.t ≤ e2.2.t) ∧
          (e.2.a = e2.2.a → e.2.t = e2.2.t →
            [e, e2] <+ [("x", c3wNew), ("y", c3wIn), ("z", c3wOld)])) :=
  ⟨by decide, by decide,
    eviction_ordering 1 [("x", c3wNew), ("y", c3wIn), ("z", c3wOld)] (by decide) (by decide)⟩

/-- Claim C9: an accepted player heartbeat whose request omits `placeId` (or
sends a falsy value such as the empty string) stores a `PlayerRecord` whose
`placeId` silently equals `serverId`, and subsequent active-player listings
return this defaulted value. -/
theorem heartbeat_placeId_default (nowT : Nat) (req : HBReq)
    (store : List (String × PRec)) (u sId jId : String) (hnd : NodupKeys store)
    (hu : req.username = some u) (hu2 : u ≠ "")
    (hs : req.serverId = some sId) (hs2 : sId ≠ "")
    (hj : req.jobId = some jId) (hj2 : jId ≠ "")
    (hp : req.placeId = none ∨ req.placeId = some "")
    (hcap : store.length < MAX_PLAYERS) :
    (postPlayersHeartbeat nowT req store).1 = true ∧
    mapLookup (playerKey u sId jId) (postPlayersHeartbeat nowT req store).2
      = some ⟨u, sId, jId, sId, nowT⟩ ∧
    playerToWire nowT ⟨u, sId, jId, sId, nowT⟩
      ∈ listActivePlayers nowT (postPlayersHeartbeat nowT req store).2 := by
  have hval : ¬ (falsyStr req.username = true ∨ falsyStr req.serverId = true
      ∨ falsyStr req.jobId = true) := by
    rw [hu, hs, hj]
    simp [falsyStr, hu2, hs2, hj2]
  have hkey : playerKey (req.username.getD "") (req.serverId.getD "") (req.jobId.getD "")
      = playerKey u sId jId := by
    rw [hu, hs, hj]
    rfl
  have hrec : (⟨req.username.getD "", req.serverId.getD "", req.jobId.getD "",
      match req.placeId with
      | none => req.serverId.getD ""
      | some p => if p = "" then req.serverId.getD "" else p,
      nowT⟩ : PRec) = ⟨u, sId, jId, sId, nowT⟩ := by
    rcases hp with hp | hp <;> rw [hu, hs, hj, hp] <;> rfl
  unfold postPlayersHeartbeat
  rw [if_neg hval, hkey, hrec]
  have hfresh : ¬ (nowT < nowT - PLAYER_TIMEOUT_MS) := by omega
  have hlen1 : (mapSet (playerKey u sId jId) (⟨u, sId, jId, sId, nowT⟩ : PRec) store).length
      ≤ MAX_PLAYERS := by
    have := length_mapSet_le (playerKey u sId jId) (⟨u, sId, jId, sId, nowT⟩ : PRec) store
    omega
  have h2 : mapLookup (playerKey u sId jId)
      (cleanupInactivePlayers nowT
        (mapSet (playerKey u sId jId) (⟨u, sId, jId, sId, nowT⟩ : PRec) store))
      = some ⟨u, sId, jId, sId, nowT⟩ :=
    mapLookup_cleanupPlayers_fresh hlen1 (mapLookup_mapSet_self _ _ store) hfresh
  refine ⟨rfl, h2, ?_⟩
  have hnd1 : NodupKeys (mapSet (playerKey u sId jId) (⟨u, sId, jId, sId, nowT⟩ : PRec) store) :=
    nodupKeys_mapSet hnd _ _
  have hlen2 : (cleanupInactivePlayers nowT
      (mapSet (playerKey u sId jId) (⟨u, sId, jId, sId, nowT⟩ : PRec) store)).length
      ≤ MAX_PLAYERS := by
    have ha := length_evictBy_le playerLe MAX_PLAYERS
      ((mapSet (playerKey u sId jId) (⟨u, sId, jId, sId, nowT⟩ : PRec) store).filter
        (fun e => decide (¬ e.2.lastSeen < nowT - PLAYER_TIMEOUT_MS)))
    have hb := List.length_filter_le
      (fun e : String × PRec => decide (¬ e.2.lastSeen < nowT - PLAYER_TIMEOUT_MS))
      (mapSet (playerKey u sId jId) (⟨u, sId, jId, sId, nowT⟩ : PRec) store)
    unfold cleanupInactivePlayers
    omega
  have h3 := mapLookup_cleanupPlayers_fresh hlen2 h2 hfresh
  exact List.mem_map_of_mem _ (mapLookup_mem h3)

def c9Req : HBReq := ⟨some "U", some "s", some "j", none⟩

theorem heartbeat_placeId_default_witness :
    NodupKeys ([] : List (String × PRec)) ∧
    c9Req.username = some "U" ∧ "U" ≠ "" ∧
    c9Req.serverId = some "s" ∧ "s" ≠ "" ∧
    c9Req.jobId = some "j" ∧ "j" ≠ "" ∧
    (c9Req.placeId = none ∨ c9Req.placeId = some "") ∧
    ([] : List (String × PRec)).length < MAX_PLAYERS ∧
    ((postPlayersHeartbeat 5 c9Req []).1 = true ∧
      mapLookup (playerKey "U" "s" "j") (postPlayersHeartbeat 5 c9Req []).2
        = some ⟨"U", "s", "j", "s", 5⟩ ∧
      playerToWire 5 ⟨"U", "s", "j", "s", 5⟩
        ∈ listActivePlayers 5 (postPlayersHeartbeat 5 c9Req []).2) :=
  ⟨by decide, by decide, by decide, by decide, by decide, by decide, by decide,
    Or.inl (by decide), by decide,
    heartbeat_placeId_default 5 c9Req [] "U" "s" "j" (by decide) (by decide) (by decide)
      (by decide) (by decide) (by decide) (by decide) (Or.inl (by decide)) (by decide)⟩

def c5Req : HBReq := ⟨some " ", some "s", some "j", none⟩

/-- Claim C5 counterexample: a heartbeat whose `username` is the
whitespace-only string `" "` is accepted — the handler checks only JS
truthiness, without trimming — the call answers success and the store gains a
record keyed by the whitespace username, while the claim requires a 400
rejection with the store unchanged. -/
theorem c5_counterexample :
    (postPlayersHeartbeat 5 c5Req []).1 = true ∧
    (postPlayersHeartbeat 5 c5Req []).2
      = [(" _s_j", ⟨" ", "s", "j", "s", 5⟩)] := by decide

/-- Claim C5 (amended): the presence ingest trims its required fields, so a
field that is absent or blank after trimming whitespace is rejected with a
400 and the store unchanged; the player heartbeat and the force-join issue
validate only JS truthiness, so only absent or empty-string fields are
rejected (400, store unchanged) and whitespace-only fields pass validation. -/
theorem required_field_validation :
    (∀ (nowT : Nat) (src : String) (req : IngestReq) (store : List (String × BR)),
      (normField req.name = "" ∨ normField req.serverId = "" ∨ normField req.jobId = "") →
      postBrainrots nowT src req store = (IngestResult.badReq, store)) ∧
    (∀ (nowT : Nat) (req : HBReq) (store : List (String × PRec)),
      (falsyStr req.username = true ∨ falsyStr req.serverId = true
        ∨ falsyStr req.jobId = true) →
      postPlayersHeartbeat nowT req store = (false, store)) ∧
    (∀ (nowT : Nat) (req : FJIssueReq) (q : List (String × FJCmd)),
      (falsyTU req.targetUsernames = true ∨ falsyStr req.placeId = true
        ∨ falsyStr req.jobId = true) →
      issueForceJoin nowT req q = (false, q)) := by
  refine ⟨?_, ?_, ?_⟩
  · intro nowT src req store h
    unfold postBrainrots upsertBrainrot
    rw [if_pos h]
  · intro nowT req store h
    unfold postPlayersHeartbeat
    rw [if_pos h]
  · intro nowT req q h
    unfold issueForceJoin
    rw [if_pos h]

def c5wIngest : IngestReq := ⟨some "   ", some "s", some "j", 0, 0⟩

def c5wHB : HBReq := ⟨none, some "s", some "j", none⟩

def c5wFJ : FJIssueReq := ⟨some (Sum.inl ""), some "p", some "j", none⟩

theorem required_field_validation_witness :
    (normField c5wIngest.name = "" ∨ normField c5wIngest.serverId = ""
      ∨ normField c5wIngest.jobId = "") ∧
    postBrainrots 5 "lua" c5wIngest [] = (IngestResult.badReq, []) ∧
    (falsyStr c5wHB.username = true ∨ falsyStr c5wHB.serverId = true
      ∨ falsyStr c5wHB.jobId = true) ∧
    postPlayersHeartbeat 5 c5wHB [] = (false, []) ∧
    (falsyTU c5wFJ.targetUsernames = true ∨ falsyStr c5wFJ.placeId = true
      ∨ falsyStr c5wFJ.jobId = true) ∧
    issueForceJoin 5 c5wFJ [] = (false, []) :=
  ⟨by decide, required_field_validation.1 5 "lua" c5wIngest [] (by decide),
    by decide, required_field_validation.2.1 5 c5wHB [] (by decide),
    by decide, required_field_validation.2.2 5 c5wFJ [] (by decide)⟩

/-- All commands stored for this username are already marked executed. -/
def ConsumedFor (u : String) (q : List (String × FJCmd)) : Prop :=
  ∀ e ∈ q, e.1 = jsTrim (jsToLower u) → e.2.executed = true

theorem consumedFor_cleanup {u : String} {nowT : Nat} {q : List (String × FJCmd)}
    (h : ConsumedFor u q) : ConsumedFor u (cleanupForceJoinCommands nowT q) := by
  intro e he hk
  exact h e (List.mem_filter.mp he).1 hk

theorem consumeForceJoin_eq_none {nowT : Nat} {u : String} {q : List (String × FJCmd)}
    (hl : mapLookup (jsTrim (jsToLower u)) (cleanupForceJoinCommands nowT q) = none) :
    consumeForceJoin nowT u q = (none, cleanupForceJoinCommands nowT q) := by
  unfold consumeForceJoin
  rw [hl]

theorem consumeForceJoin_eq_executed {nowT : Nat} {u : String} {q : List (String × FJCmd)}
    {cmd : FJCmd}
    (hl : mapLookup (jsTrim (jsToLower u)) (cleanupForceJoinCommands nowT q) = some cmd)
    (hex : cmd.executed = true) :
    consumeForceJoin nowT u q = (none, cleanupForceJoinCommands nowT q) := by
  unfold consumeForceJoin
  rw [hl]
  simp [hex]

theorem consumeForceJoin_eq_deliver {nowT : Nat} {u : String} {q : List (String × FJCmd)}
    {cmd : FJCmd}
    (hl : mapLookup (jsTrim (jsToLower u)) (cleanupForceJoinCommands nowT q) = some cmd)
    (hex : ¬ cmd.executed = true) :
    consumeForceJoin nowT u q
      = (some ⟨cmd.placeId, cmd.jobId, cmd.issuer⟩,
          mapSet (jsTrim (jsToLower u))
            ⟨cmd.placeId, cmd.jobId, cmd.timestamp, cmd.issuer, true, some nowT⟩
            (cleanupForceJoinCommands nowT q)) := by
  unfold consumeForceJoin
  rw [hl]
  simp [hex]

theorem consume_marks_consumed {nowT : Nat} {u : String} {q : List (String × FJCmd)}
    (hnd : NodupKeys q) {p : FJPayload}
    (h : (consumeForceJoin nowT u q).1 = some p) :
    ConsumedFor u (consumeForceJoin nowT u q).2 := by
  cases hl : mapLookup (jsTrim (jsToLower u)) (cleanupForceJoinCommands nowT q) with
  | none =>
    rw [consumeForceJoin_eq_none hl] at h
    simp at h
  | some cmd =>
    by_cases hex : cmd.executed = true
    · rw [consumeForceJoin_eq_executed hl hex] at h
      simp at h
    · rw [consumeForceJoin_eq_deliver hl hex]
      intro e he hk
      have hndc : NodupKeys (cleanupForceJoinCommands nowT q) := nodupKeys_filter _ hnd
      rw [mem_mapSet_key hndc he hk]

theorem consume_after_consumed (nowT : Nat) {u : String} {q : List (String × FJCmd)}
    (h : ConsumedFor u q) :
    (consumeForceJoin nowT u q).1 = none ∧
    ConsumedFor u (consumeForceJoin nowT u q).2 := by
  cases hl : mapLookup (jsTrim (jsToLower u)) (cleanupForceJoinCommands nowT q) with
  | none =>
    rw [consumeForceJoin_eq_none hl]
    exact ⟨rfl, consumedFor_cleanup h⟩
  | some cmd =>
    have hex : cmd.executed = true := by
      have hmem := mapLookup_mem hl
      exact h (jsTrim (jsToLower u), cmd) (List.mem_filter.mp hmem).1 rfl
    rw [consumeForceJoin_eq_executed hl hex]
    exact ⟨rfl, consumedFor_cleanup h⟩

theorem consumeChain_none (u : String) (ts : List Nat) :
    ∀ q, ConsumedFor u q → ∀ r ∈ consumeChain u ts q, r = none := by
  induction ts with
  | nil =>
    intro q _ r hr
    simp [consumeChain] at hr
  | cons t ts' ih =>
    intro q h r hr
    obtain ⟨h1, h2⟩ := consume_after_consumed t h
    rw [consumeChain] at hr
    rcases List.mem_cons.mp hr with hr | hr
    · rw [hr, h1]
    · exact ih _ h2 r hr

def c2wReq : FJIssueReq := ⟨some (Sum.inl "alice"), some "p1", some "j1", some "op"⟩

/-- Claim C2 counterexample: issue at time 0, first consume at time 70000
(beyond the 60-second command TTL).  The inline TTL cleanup deletes the
command first, so the very first consume after the issue already answers
"no command", while the claim promises the payload to the first consume. -/
theorem c2_counterexample :
    (issueForceJoin 0 c2wReq []).1 = true ∧
    (consumeForceJoin 70000 "alice" ((issueForceJoin 0 c2wReq []).2)).1 = none := by decide

/-- Claim C2 (amended): after an issue for a username, the first consume that
happens within the 60-second command TTL returns the command payload
(`placeId`, `jobId`, `issuer`); and once any consume has returned a payload,
every later chain of consume calls for that username returns "no command"
until a new issue overwrites the entry — there are never two payload-returning
consume calls without an intervening issue. -/
theorem forceJoin_at_most_once :
    (∀ (t0 t1 : Nat) (u P J I : String) (q : List (String × FJCmd)),
      u ≠ "" → P ≠ "" → J ≠ "" → I ≠ "" → t1 ≤ t0 + FORCE_JOIN_EXPIRE_MS →
      (consumeForceJoin t1 u
        ((issueForceJoin t0 ⟨some (Sum.inl u), some P, some J, some I⟩ q).2)).1
        = some ⟨P, J, I⟩) ∧
    (∀ (t : Nat) (u : String) (q : List (String × FJCmd)) (p : FJPayload),
      NodupKeys q → (consumeForceJoin t u q).1 = some p →
      ∀ ts : List Nat, ∀ r ∈ consumeChain u ts (consumeForceJoin t u q).2, r = none) := by
  constructor
  · intro t0 t1 u P J I q hu hP hJ hI hTTL
    have hval : ¬ (falsyTU (some (Sum.inl u)) = true ∨ falsyStr (some P) = true
        ∨ falsyStr (some J) = true) := by
      simp [falsyTU, falsyStr, hu, hP, hJ]
    have hq2 : (issueForceJoin t0 ⟨some (Sum.inl u), some P, some J, some I⟩ q).2
        = cleanupForceJoinCommands t0
            (mapSet (jsTrim (jsToLower u)) ⟨P, J, t0, I, false, none⟩ q) := by
      unfold issueForceJoin
      rw [if_neg hval]
      simp [fjUsernames, hI]
    rw [hq2]
    have hl1 : mapLookup (jsTrim (jsToLower u))
        (cleanupForceJoinCommands t0
          (mapSet (jsTrim (jsToLower u)) ⟨P, J, t0, I, false, none⟩ q))
        = some ⟨P, J, t0, I, false, none⟩ :=
      mapLookup_filter _ (mapLookup_mapSet_self _ _ q) (by simp)
    have hl2 : mapLookup (jsTrim (jsToLower u))
        (cleanupForceJoinCommands t1
          (cleanupForceJoinCommands t0
            (mapSet (jsTrim (jsToLower u)) ⟨P, J, t0, I, false, none⟩ q)))
        = some ⟨P, J, t0, I, false, none⟩ :=
      mapLookup_filter _ hl1 (by simp; omega)
    rw [consumeForceJoin_eq_deliver hl2 (by simp)]
  · intro t u q p hnd h ts
    exact consumeChain_none u ts _ (consume_marks_consumed hnd h)

theorem forceJoin_at_most_once_witness :
    ("alice" : String) ≠ "" ∧ ("p1" : String) ≠ "" ∧ ("j1" : String) ≠ "" ∧
    ("op" : String) ≠ "" ∧ (1000 : Nat) ≤ 0 + FORCE_JOIN_EXPIRE_MS ∧
    (consumeForceJoin 1000 "alice" ((issueForceJoin 0 c2wReq []).2)).1
      = some ⟨"p1", "j1", "op"⟩ ∧
    NodupKeys ((consumeForceJoin 1000 "alice" ((issueForceJoin 0 c2wReq []).2)).2) ∧
    consumeChain "alice" [2000, 70000]
      (consumeForceJoin 1000 "alice" ((issueForceJoin 0 c2wReq []).2)).2
      = [none, none] :=
  ⟨by decide, by decide, by decide, by decide, by decide,
    forceJoin_at_most_once.1 0 1000 "alice" "p1" "j1" "op" [] (by decide) (by decide)
      (by decide) (by decide) (by decide),
    by decide, by decide⟩

/-- `lastSeen` replacement on a presence record, all other fields kept. -/
def setT (r : BR) (t' : Nat) : BR := ⟨r.n, r.s, r.j, r.p, r.m, t', r.a, r.src, r.f⟩

/-- `lastSeen` replacement on a player record, all other fields kept. -/
def setLS (r : PRec) (t' : Nat) : PRec := ⟨r.username, r.serverId, r.jobId, r.placeId, t'⟩

theorem snapshotActiveBR_setT_ne (k : String) (r : BR) (t' : Nat)
    (hra : r.a = true) (hne : t' ≠ r.t) :
    ∀ store : List (String × BR), NodupKeys store → mapLookup k store = some r →
    snapshotActiveBR (mapSet k (setT r t') store) ≠ snapshotActiveBR store := by
  intro store
  induction store with
  | nil =>
    intro _ hk
    simp [mapLookup] at hk
  | cons e t ih =>
    intro hnd hk
    have hnd2 : e.1 ∉ mapKeys t ∧ NodupKeys t := by
      simpa [NodupKeys, mapKeys, List.nodup_cons] using hnd
    by_cases he : e.1 = k
    · have he2 : e.2 = r := by
        simp only [mapLookup, if_pos he] at hk
        exact Option.some.inj hk
      rw [show mapSet k (setT r t') (e :: t) = (k, setT r t') :: t by simp [mapSet, he]]
      unfold snapshotActiveBR
      rw [List.filter_cons_of_pos (by simp [setT, hra]),
        List.filter_cons_of_pos (by simp [he2, hra])]
      simp only [List.map_cons]
      intro hcontra
      injection hcontra with h1 _
      have h3 : t' = e.2.t := congrArg BRWire.t h1
      rw [he2] at h3
      exact hne h3
    · rw [show mapSet k (setT r t') (e :: t) = e :: mapSet k (setT r t') t
        by simp [mapSet, he]]
      have hk2 : mapLookup k t = some r := by simpa [mapLookup, he] using hk
      by_cases hea : e.2.a = true
      · unfold snapshotActiveBR
        rw [List.filter_cons_of_pos (by simp [hea]), List.filter_cons_of_pos (by simp [hea])]
        simp only [List.map_cons]
        intro hcontra
        injection hcontra with _ h2
        exact ih hnd2.2 hk2 h2
      · unfold snapshotActiveBR
        rw [List.filter_cons_of_neg (by simp [hea]), List.filter_cons_of_neg (by simp [hea])]
        exact ih hnd2.2 hk2

theorem snapshotActivePlayers_setLS_eq (nowT : Nat) (k : String) (r : PRec) (t' : Nat)
    (hsec : (nowT - t') / 1000 = (nowT - r.lastSeen) / 1000) :
    ∀ store : List (String × PRec), mapLookup k store = some r →
    snapshotActivePlayers nowT (mapSet k (setLS r t') store)
      = snapshotActivePlayers nowT store := by
  intro store
  induction store with
  | nil =>
    intro hk
    simp [mapLookup] at hk
  | cons e t ih =>
    intro hk
    by_cases he : e.1 = k
    · have he2 : e.2 = r := by
        simp only [mapLookup, if_pos he] at hk
        exact Option.some.inj hk
      rw [show mapSet k (setLS r t') (e :: t) = (k, setLS r t') :: t by simp [mapSet, he]]
      simp only [snapshotActivePlayers, List.map_cons]
      rw [he2]
      simp [playerToWire, setLS, hsec]
    · rw [show mapSet k (setLS r t') (e :: t) = e :: mapSet k (setLS r t') t
        by simp [mapSet, he]]
      have hk2 : mapLookup k t = some r := by simpa [mapLookup, he] using hk
      simp only [snapshotActivePlayers, List.map_cons]
      rw [show (mapSet k (setLS r t') t).map (fun e => playerToWire nowT e.2)
          = snapshotActivePlayers nowT (mapSet k (setLS r t') t) from rfl,
        show t.map (fun e => playerToWire nowT e.2) = snapshotActivePlayers nowT t from rfl,
        ih hk2]

def c6p0 : PRec := ⟨"u", "s", "j", "p", 0⟩

/-- Claim C6 counterexample: two player stores that differ only in a record's
`lastSeen` (0 versus 400 ms before `now = 900`) serialize to the same
GET `/players/active` body, because the serialization floors
`(now - lastSeen)` to whole seconds — and the md5 ETag of equal serialized
bodies is equal, so the `lastSeen` change does not change the fingerprint. -/
theorem c6_counterexample :
    snapshotActivePlayers 900 [("k", c6p0)]
      = snapshotActivePlayers 900 [("k", setLS c6p0 400)] ∧
    c6p0.lastSeen ≠ (setLS c6p0 400).lastSeen := by decide

/-- Claim C6 (amended): the fingerprint is the md5 of the serialized snapshot,
modelled here by the snapshot itself.  For the presence endpoint the
serialization carries `lastSeen` verbatim, so changing `lastSeen` of any
record in the active snapshot changes the serialized snapshot (hence the
fingerprint input).  For the player endpoint `lastSeen` enters only as
`floor((now - lastSeen) / 1000)`, so a `lastSeen` change within the same
floored second leaves the serialized snapshot — and therefore the ETag —
unchanged. -/
theorem fingerprint_sensitivity :
    (∀ (store : List (String × BR)) (k : String) (r : BR) (t' : Nat),
      NodupKeys store → mapLookup k store = some r → r.a = true → t' ≠ r.t →
      snapshotActiveBR (mapSet k (setT r t') store) ≠ snapshotActiveBR store) ∧
    (∀ (nowT : Nat) (store : List (String × PRec)) (k : String) (r : PRec) (t' : Nat),
      mapLookup k store = some r → (nowT - t') / 1000 = (nowT - r.lastSeen) / 1000 →
      snapshotActivePlayers nowT (mapSet k (setLS r t') store)
        = snapshotActivePlayers nowT store) :=
  ⟨fun store k r t' hnd hk hra hne => snapshotActiveBR_setT_ne k r t' hra hne store hnd hk,
    fun nowT store k r t' hk hsec => snapshotActivePlayers_setLS_eq nowT k r t' hsec store hk⟩

def c6wr : BR := ⟨"n", "s", "j", 1, 2, 100, true, "lua", 1⟩

theorem fingerprint_sensitivity_witness :
    (NodupKeys [("k", c6wr)] ∧ mapLookup "k" [("k", c6wr)] = some c6wr ∧
      c6wr.a = true ∧ (200 : Nat) ≠ c6wr.t ∧
      snapshotActiveBR (mapSet "k" (setT c6wr 200) [("k", c6wr)])
        ≠ snapshotActiveBR [("k", c6wr)]) ∧
    (mapLookup "k" [("k", c6p0)] = some c6p0 ∧
      (900 - 400) / 1000 = (900 - c6p0.lastSeen) / 1000 ∧
      snapshotActivePlayers 900 (mapSet "k" (setLS c6p0 400) [("k", c6p0)])
        = snapshotActivePlayers 900 [("k", c6p0)]) :=
  ⟨⟨by decide, by decide, by decide, by decide,
      fingerprint_sensitivity.1 [("k", c6wr)] "k" c6wr 200 (by decide) (by decide)
        (by decide) (by decide)⟩,
    ⟨by decide, by decide,
      fingerprint_sensitivity.2 900 [("k", c6p0)] "k" c6p0 400 (by decide) (by decide)⟩⟩

end Brainrot
